import Mathlib

/-!
Verification of the Fornjot B-rep kernel fragments, shallowly embedded in
Lean 4. Numeric scalars (`Scalar`, `f64`) are modelled as rationals; this
keeps the comparison logic of the source exact while staying decidable.
-/

namespace Fornjot

/-! ## Spatial vertex index (`src/kernel/shape/vertices.rs`)

`Vertices` holds a minimum distance and a kd-tree (`VerticesInner`, a
`kiddo::KdTree`) of the admitted vertex positions. We model the kd-tree by
the list of points stored in it.
-/

/-- A 3D point (`Point<3>`), with rational coordinates standing in for `f64`. -/
structure Point3 where
  x : ℚ
  y : ℚ
  z : ℚ
deriving DecidableEq, Repr

/-- `kiddo::distance::squared_euclidean` for 3 dimensions. -/
def squared_euclidean (p q : Point3) : ℚ :=
  (p.x - q.x) ^ 2 + (p.y - q.y) ^ 2 + (p.z - q.z) ^ 2

/-- The kd-tree of admitted vertex positions (`VerticesInner`), modelled as
the list of points it contains. `add` is list cons. -/
abbrev VerticesInner := List Point3

/-- `kiddo`'s `nearest_one`: the squared distance from the query to the
closest stored point, together with that point; `Err(Empty)` (here `none`)
when the tree is empty. -/
def nearest_one (pts : VerticesInner) (query : Point3) : Option (ℚ × Point3) :=
  match pts with
  | [] => none
  | p :: rest =>
    match nearest_one rest query with
    | none => some (squared_euclidean query p, p)
    | some (d, b) =>
      if squared_euclidean query p < d then some (squared_euclidean query p, p)
      else some (d, b)

/-- `Vertices::create`: query the nearest existing point; if its squared
distance to the new point is below the squared minimum distance, panic
naming the offending existing vertex (modelled as `Except.error existing`);
otherwise add the point to the tree and return the new vertex. On success
the result carries the created vertex's point and the updated tree. -/
def create (min_distance : ℚ) (vertices : VerticesInner) (point : Point3) :
    Except Point3 (Point3 × VerticesInner) :=
  match nearest_one vertices point with
  | some (distance_squared, existing) =>
    if distance_squared < min_distance * min_distance then
      Except.error existing
    else
      Except.ok (point, point :: vertices)
  | none =>
    Except.ok (point, point :: vertices)

/-- `Vertices::all` as implemented: the body is the stub
`std::iter::empty()` (marked `TASK: Implement` in the source), so it yields
no vertices regardless of the store's contents. -/
def Vertices.all (_vertices : VerticesInner) : List Point3 := []

/-- The states of the vertex store reachable by a sequence of successful
`create` calls starting from an empty store. -/
inductive Reachable (min_distance : ℚ) : VerticesInner → Prop
  | empty : Reachable min_distance []
  | create (pts pts' : VerticesInner) (p v : Point3) :
      Reachable min_distance pts →
      create min_distance pts p = Except.ok (v, pts') →
      Reachable min_distance pts'

theorem nearest_one_eq_none (pts : VerticesInner) (q : Point3) :
    nearest_one pts q = none ↔ pts = [] := by
  cases pts with
  | nil => simp [nearest_one]
  | cons p rest =>
    simp only [nearest_one]
    constructor
    · intro h
      cases hrest : nearest_one rest q with
      | none => rw [hrest] at h; simp at h
      | some db =>
        rcases db with ⟨d, b⟩
        rw [hrest] at h
        by_cases hlt : squared_euclidean q p < d <;> simp [hlt] at h
    · intro h; cases h

theorem nearest_one_spec (pts : VerticesInner) (q : Point3) (d : ℚ) (b : Point3)
    (h : nearest_one pts q = some (d, b)) :
    b ∈ pts ∧ d = squared_euclidean q b ∧ ∀ p ∈ pts, d ≤ squared_euclidean q p := by
  induction pts generalizing d b with
  | nil => simp [nearest_one] at h
  | cons p rest ih =>
    simp only [nearest_one] at h
    cases hrest : nearest_one rest q with
    | none =>
      rw [hrest] at h
      simp only [Option.some.injEq, Prod.mk.injEq] at h
      obtain ⟨rfl, rfl⟩ := h
      obtain rfl : rest = [] := (nearest_one_eq_none rest q).mp hrest
      exact ⟨List.mem_singleton_self _, rfl, by simp⟩
    | some db =>
      rcases db with ⟨d0, b0⟩
      rw [hrest] at h
      dsimp only at h
      have hrec := ih d0 b0 hrest
      by_cases hlt : squared_euclidean q p < d0
      · rw [if_pos hlt] at h
        simp only [Option.some.injEq, Prod.mk.injEq] at h
        obtain ⟨rfl, rfl⟩ := h
        refine ⟨List.mem_cons_self _ _, rfl, ?_⟩
        intro r hr
        rcases List.mem_cons.mp hr with rfl | hr'
        · exact le_refl _
        · exact le_of_lt (lt_of_lt_of_le hlt (hrec.2.2 r hr'))
      · rw [if_neg hlt] at h
        simp only [Option.some.injEq, Prod.mk.injEq] at h
        obtain ⟨rfl, rfl⟩ := h
        refine ⟨List.mem_cons_of_mem _ hrec.1, hrec.2.1, ?_⟩
        intro r hr
        rcases List.mem_cons.mp hr with rfl | hr'
        · exact le_of_not_lt hlt
        · exact hrec.2.2 r hr'

theorem squared_euclidean_comm (p q : Point3) :
    squared_euclidean p q = squared_euclidean q p := by
  simp only [squared_euclidean]; ring

theorem create_ok_spec (min_distance : ℚ) (pts pts' : VerticesInner)
    (p v : Point3) (h : create min_distance pts p = Except.ok (v, pts')) :
    v = p ∧ pts' = p :: pts ∧
      ∀ q ∈ pts, min_distance * min_distance ≤ squared_euclidean p q := by
  cases hn : nearest_one pts p with
  | none =>
    simp only [create, hn] at h
    obtain rfl : pts = [] := (nearest_one_eq_none pts p).mp hn
    simp only [Except.ok.injEq, Prod.mk.injEq] at h
    exact ⟨h.1.symm, h.2.symm, by simp⟩
  | some db =>
    rcases db with ⟨d, b⟩
    simp only [create, hn] at h
    by_cases hlt : d < min_distance * min_distance
    · rw [if_pos hlt] at h
      exact Except.noConfusion h
    · rw [if_neg hlt] at h
      simp only [Except.ok.injEq, Prod.mk.injEq] at h
      refine ⟨h.1.symm, h.2.symm, ?_⟩
      intro q hq
      have hspec := nearest_one_spec pts p d b hn
      calc min_distance * min_distance ≤ d := le_of_not_lt hlt
        _ ≤ squared_euclidean p q := hspec.2.2 q hq

/-- C1: starting from an empty store, every sequence of successful `create`
calls maintains pairwise squared separation of at least the squared minimum
distance between admitted vertices, and any request whose point lies
strictly within the minimum distance of an already-admitted vertex is
rejected as an error naming an offending existing vertex (no updated store
is produced). -/
theorem vertex_min_distance_invariant (min_distance : ℚ) (pts : VerticesInner)
    (h : Reachable min_distance pts) :
    List.Pairwise
      (fun a b => min_distance * min_distance ≤ squared_euclidean a b) pts ∧
    ∀ point q, q ∈ pts →
      squared_euclidean point q < min_distance * min_distance →
      ∃ existing, existing ∈ pts ∧
        squared_euclidean point existing < min_distance * min_distance ∧
        create min_distance pts point = Except.error existing := by
  constructor
  · induction h with
    | empty => exact List.Pairwise.nil
    | create pts pts' p v _ hok ih =>
      obtain ⟨-, rfl, hsep⟩ := create_ok_spec _ _ _ _ _ hok
      exact List.pairwise_cons.mpr ⟨hsep, ih⟩
  · intro point q hq hclose
    cases hn : nearest_one pts point with
    | none =>
      obtain rfl : pts = [] := (nearest_one_eq_none pts point).mp hn
      cases hq
    | some db =>
      rcases db with ⟨d, b⟩
      have hspec := nearest_one_spec pts point d b hn
      have hd : d < min_distance * min_distance :=
        lt_of_le_of_lt (hspec.2.2 q hq) hclose
      refine ⟨b, hspec.1, hspec.2.1 ▸ hd, ?_⟩
      simp only [create, hn]
      rw [if_pos hd]

/-- Witness for C1 at a concrete reachable store: after admitting the
origin with minimum distance 1, the invariant holds and the too-close
request `(1/2, 0, 0)` is rejected naming the origin. -/
theorem vertex_min_distance_invariant_witness :
    List.Pairwise
      (fun a b => (1 : ℚ) * 1 ≤ squared_euclidean a b) [⟨0, 0, 0⟩] ∧
    ∃ existing, existing ∈ [(⟨0, 0, 0⟩ : Point3)] ∧
      squared_euclidean ⟨1 / 2, 0, 0⟩ existing < 1 * 1 ∧
      create 1 [⟨0, 0, 0⟩] ⟨1 / 2, 0, 0⟩ = Except.error existing := by
  have h := vertex_min_distance_invariant 1 [⟨0, 0, 0⟩]
    (Reachable.create [] [⟨0, 0, 0⟩] ⟨0, 0, 0⟩ ⟨0, 0, 0⟩ Reachable.empty rfl)
  exact ⟨h.1, h.2 ⟨1 / 2, 0, 0⟩ ⟨0, 0, 0⟩ (List.mem_singleton_self _)
    (by norm_num [squared_euclidean])⟩

/-- C10: a creation request whose squared distance to the nearest admitted
vertex equals the squared minimum distance exactly is admitted (the
rejection test is strict), and the point is added to the stored set. -/
theorem create_admits_at_exact_min_distance (min_distance : ℚ)
    (pts : VerticesInner) (point existing : Point3) (d : ℚ)
    (hn : nearest_one pts point = some (d, existing))
    (hd : d = min_distance * min_distance) :
    create min_distance pts point = Except.ok (point, point :: pts) := by
  simp only [create, hn, hd]
  simp

/-- Witness for C10: with minimum distance 1 and the origin admitted, the
point `(1, 0, 0)` at squared distance exactly 1 is admitted. -/
theorem create_admits_at_exact_min_distance_witness :
    create 1 [⟨0, 0, 0⟩] ⟨1, 0, 0⟩ =
      Except.ok (⟨1, 0, 0⟩, [⟨1, 0, 0⟩, ⟨0, 0, 0⟩]) :=
  create_admits_at_exact_min_distance 1 [⟨0, 0, 0⟩] ⟨1, 0, 0⟩ ⟨0, 0, 0⟩ 1
    (by norm_num [nearest_one, squared_euclidean]) (by norm_num)

/-- C6 (code bug): after admitting the origin into an empty store the store
holds one vertex, yet `Vertices::all` returns the empty list — the stub
does not enumerate the admitted set. -/
theorem all_misses_admitted_vertices :
    create 1 [] ⟨0, 0, 0⟩ = Except.ok (⟨0, 0, 0⟩, [⟨0, 0, 0⟩]) ∧
    ([(⟨0, 0, 0⟩ : Point3)]).length = 1 ∧
    Vertices.all [⟨0, 0, 0⟩] = [] ∧
    (Vertices.all [⟨0, 0, 0⟩]).length = 0 :=
  ⟨rfl, rfl, rfl, rfl⟩

/-! ## Trapezoidal map, x-split update
(`fj/src/geometry/triangulation/trapezoidation/update/x_split.rs`)

Only `update` itself is in the sampled source; the node-graph data model it
operates on (`graph.rs`, `ids.rs`, `segment.rs`) is reconstructed from the
spec's description of Sink, X and Y nodes.
-/

/-- Node ids (`ids::Id`). -/
abbrev Id := Nat

/-- Modelled from the spec: a 2D point of the trapezoidation plane
(`point::Point`), with rational coordinates standing in for `f64`. -/
structure Point2 where
  x : ℚ
  y : ℚ
deriving DecidableEq, Repr

/-- Modelled from the spec: a non-degenerate segment between two endpoints
(`segment::Segment`). -/
structure Segment where
  lower : Point2
  upper : Point2
deriving DecidableEq, Repr

/-- Modelled from the spec: a Sink node is a leaf recording one
trapezoidal region's left- and right-bounding segments (if any). -/
structure Sink where
  left_segment : Option Segment
  right_segment : Option Segment
deriving DecidableEq, Repr

/-- Modelled from the spec: an X-node branches on horizontal position
relative to a segment endpoint; its fields are those `update` uses — the
inserted segment and the left/right child regions. -/
structure X where
  segment : Segment
  left : Id
  right : Id
deriving DecidableEq, Repr

/-- Modelled from the spec: a Y-node branches on point-vs-segment
sidedness. -/
structure Y where
  segment : Segment
  above : Id
  below : Id
deriving DecidableEq, Repr

/-- A node of the trapezoidation search graph. -/
inductive Node
  | sink (s : Sink)
  | x (n : X)
  | y (n : Y)
deriving DecidableEq, Repr

/-- Modelled from the spec: the node graph, as a total map from ids to
nodes (`Graph::get` / `Graph::get_mut`). -/
def Graph := Id → Node

/-- Read a node (`Graph::get`). -/
def Graph.get (g : Graph) (i : Id) : Node := g i

/-- Replace a node (write-back through `Graph::get_mut`). -/
def Graph.set (g : Graph) (i : Id) (n : Node) : Graph :=
  fun j => if j = i then n else g j

/-- `Node::sink` accessor (`sink_mut` flattened to its read/write parts):
`some` of the sink payload when the node is a Sink, else `none`. -/
def Node.sink? : Node → Option Sink
  | .sink s => some s
  | _ => none

/-- `update` from `x_split.rs`: set the left child sink's right-bounding
segment and the right child sink's left-bounding segment to the new
segment. The two `unwrap`s are modelled by returning `none` when a child is
not a sink. The `TASK: Implement` remainder of the source function
(boundary invalidation, marking, merging) does nothing and is therefore
absent here as well. -/
def update (_id_x : Id) (x : X) (graph : Graph) : Option Graph :=
  match (graph.get x.left).sink? with
  | none => none
  | some s =>
    let g1 := graph.set x.left (Node.sink { s with right_segment := some x.segment })
    match (g1.get x.right).sink? with
    | none => none
    | some s2 =>
      some (g1.set x.right (Node.sink { s2 with left_segment := some x.segment }))

theorem Graph.get_set_self (g : Graph) (i : Id) (n : Node) :
    (g.set i n).get i = n := by
  simp [Graph.get, Graph.set]

theorem Graph.get_set_ne (g : Graph) (i j : Id) (n : Node) (h : j ≠ i) :
    (g.set i n).get j = g.get j := by
  simp [Graph.get, Graph.set, h]

/-- C5: when the X-node's two children are sinks (the situation after a
pre-existing sink was split at the segment's endpoint), `update` succeeds
and afterwards the left region's right-bounding segment and the right
region's left-bounding segment both reference the new segment. -/
theorem x_split_update_sets_boundaries (id_x : Id) (x : X) (graph : Graph)
    (sl sr : Sink)
    (hl : (graph.get x.left).sink? = some sl)
    (hr : (graph.get x.right).sink? = some sr) :
    ∃ g', update id_x x graph = some g' ∧
      ∃ sl' sr',
        (g'.get x.left).sink? = some sl' ∧
        sl'.right_segment = some x.segment ∧
        (g'.get x.right).sink? = some sr' ∧
        sr'.left_segment = some x.segment := by
  by_cases heq : x.right = x.left
  · simp only [update, hl]
    rw [heq, Graph.get_set_self]
    simp only [Node.sink?]
    refine ⟨_, rfl, ?_⟩
    rw [Graph.get_set_self]
    exact ⟨_, _, rfl, rfl, rfl, rfl⟩
  · simp only [update, hl]
    rw [Graph.get_set_ne _ _ _ _ heq, hr]
    refine ⟨_, rfl, ?_⟩
    refine ⟨{ sl with right_segment := some x.segment },
            { sr with left_segment := some x.segment }, ?_, rfl, ?_, rfl⟩
    · rw [Graph.get_set_ne _ _ _ _ (fun h => heq h.symm), Graph.get_set_self]
      rfl
    · rw [Graph.get_set_self]
      rfl

/-- Witness for C5: one concrete x-split, both children sinks. -/
theorem x_split_update_sets_boundaries_witness :
    ∃ g', update 2 ⟨⟨⟨0, 0⟩, ⟨0, 1⟩⟩, 0, 1⟩ (fun _ => Node.sink ⟨none, none⟩) = some g' ∧
      ∃ sl' sr',
        (g'.get 0).sink? = some sl' ∧
        sl'.right_segment = some ⟨⟨0, 0⟩, ⟨0, 1⟩⟩ ∧
        (g'.get 1).sink? = some sr' ∧
        sr'.left_segment = some ⟨⟨0, 0⟩, ⟨0, 1⟩⟩ :=
  x_split_update_sets_boundaries 2 ⟨⟨⟨0, 0⟩, ⟨0, 1⟩⟩, 0, 1⟩
    (fun _ => Node.sink ⟨none, none⟩) ⟨none, none⟩ ⟨none, none⟩ rfl rfl

/-- The concrete x-split instance for C4: a two-sink graph under an X-node
for the vertical segment from (0,0) to (0,1). -/
def gC4 : Graph := fun i =>
  if i = 0 then Node.sink ⟨none, none⟩
  else if i = 1 then Node.sink ⟨none, none⟩
  else Node.x ⟨⟨⟨0, 0⟩, ⟨0, 1⟩⟩, 0, 1⟩

/-- The graph `update` actually produces on `gC4`: only the two sinks'
boundary-segment fields change. -/
def gC4' : Graph :=
  (gC4.set 0 (Node.sink ⟨none, some ⟨⟨0, 0⟩, ⟨0, 1⟩⟩⟩)).set 1
    (Node.sink ⟨some ⟨⟨0, 0⟩, ⟨0, 1⟩⟩, none⟩)

/-- C4 (code bug): on the concrete x-split `gC4`, `update` only rewrites
the two split sinks' boundary-segment fields; both regions survive as
separate sink leaves of the X-node and every other node is untouched — no
boundary invalidation, no marking, and no merging of regions into a single
sink takes place (that part of the source function is an unimplemented
`TASK` comment). -/
theorem x_split_update_performs_no_merge :
    update 2 ⟨⟨⟨0, 0⟩, ⟨0, 1⟩⟩, 0, 1⟩ gC4 = some gC4' ∧
    (gC4'.get 0).sink? = some ⟨none, some ⟨⟨0, 0⟩, ⟨0, 1⟩⟩⟩ ∧
    (gC4'.get 1).sink? = some ⟨some ⟨⟨0, 0⟩, ⟨0, 1⟩⟩, none⟩ ∧
    gC4'.get 2 = gC4.get 2 :=
  ⟨rfl, rfl, rfl, rfl⟩

/-! ## Transform engine
(`crates/fj-kernel/src/algorithms/transform/edge.rs`)

The sampled source holds the `TransformObject` impls for `HalfEdge` and
`GlobalEdge`; the cache discipline itself (`TransformCache`, a per-type map
from an original object's identity to the handle already produced for it,
consulted before transforming and filled after) lives in the unsampled
`transform` module root and is modelled from the spec (§4.3). Handles are
identities; the geometric payload of leaf transformation is irrelevant to
the sharing claims and is elided, while the identity bookkeeping is kept
exactly: a cache miss performs the transform, inserts the result into the
store (allocating the next fresh handle) and records the pair; a cache hit
reuses the recorded handle and performs no work. The `log` field is the
call-count instrumentation the spec's testable property refers to: it lists
each original object whose transform was actually computed, in order. -/

/-- Object handles, compared by identity. -/
abbrev Handle := Nat

/-- The object kinds appearing in `edge.rs`; the per-type maps of the
cache are keyed by these. Vertex sub-objects of half-edges and global
edges are modelled uniformly as the `vertex` kind. -/
inductive ObjKind
  | vertex
  | curve
  | globalEdge
deriving DecidableEq, Repr

/-- `GlobalEdge` fields as referenced by `edge.rs`: a curve and the two
vertices in normalized order. -/
structure GlobalEdgeData where
  curve : Handle
  v0 : Handle
  v1 : Handle
deriving DecidableEq, Repr

/-- `HalfEdge` fields as referenced by `edge.rs`: the ordered vertex pair
and the shared global form. -/
structure HalfEdgeData where
  v0 : Handle
  v1 : Handle
  global_form : Handle
deriving DecidableEq, Repr

/-- Modelled from the spec: `TransformCache`, a per-object-kind map from
original handle to transformed handle, plus the store's fresh-handle
counter and the computation log. -/
structure TransformCache where
  vertices : List (Handle × Handle)
  curves : List (Handle × Handle)
  global_edges : List (Handle × Handle)
  next : Handle
  log : List (ObjKind × Handle)

/-- Look a handle up in the cache map of the given kind. -/
def TransformCache.lookupK (c : TransformCache) : ObjKind → Handle → Option Handle
  | .vertex => fun h => c.vertices.lookup h
  | .curve => fun h => c.curves.lookup h
  | .globalEdge => fun h => c.global_edges.lookup h

/-- Record a freshly transformed object: its result is inserted in the
store under the next fresh handle, the pair is cached, and the computation
is logged. -/
def TransformCache.record (c : TransformCache) (k : ObjKind) (h : Handle) :
    TransformCache :=
  match k with
  | .vertex =>
    { c with vertices := (h, c.next) :: c.vertices, next := c.next + 1,
             log := c.log ++ [(k, h)] }
  | .curve =>
    { c with curves := (h, c.next) :: c.curves, next := c.next + 1,
             log := c.log ++ [(k, h)] }
  | .globalEdge =>
    { c with global_edges := (h, c.next) :: c.global_edges, next := c.next + 1,
             log := c.log ++ [(k, h)] }

/-- Modelled from the spec: `Handle<Vertex>::transform_with_cache` — on a
cache hit reuse the cached handle, on a miss transform and record. -/
def transformVertex (h : Handle) (c : TransformCache) : Handle × TransformCache :=
  match c.vertices.lookup h with
  | some cached => (cached, c)
  | none => (c.next, c.record ObjKind.vertex h)

/-- Modelled from the spec: `Handle<Curve>::transform_with_cache`. -/
def transformCurve (h : Handle) (c : TransformCache) : Handle × TransformCache :=
  match c.curves.lookup h with
  | some cached => (cached, c)
  | none => (c.next, c.record ObjKind.curve h)

/-- `TransformObject for GlobalEdge` composed with the spec-modelled cache
consultation for its handle: on a miss, transform the curve, then the two
vertices in normalized order (the recursion of `edge.rs`), then insert and
record the rebuilt global edge. -/
def transformGlobalEdge (store : Handle → GlobalEdgeData) (h : Handle)
    (c : TransformCache) : Handle × TransformCache :=
  match c.global_edges.lookup h with
  | some cached => (cached, c)
  | none =>
    let r1 := transformCurve (store h).curve c
    let r2 := transformVertex (store h).v0 r1.2
    let r3 := transformVertex (store h).v1 r2.2
    (r3.2.next, r3.2.record ObjKind.globalEdge h)

/-- `TransformObject for HalfEdge` (`edge.rs`): transform the two vertices,
then the global form, through the same cache, and reassemble. -/
def HalfEdge.transform_with_cache (store : Handle → GlobalEdgeData)
    (he : HalfEdgeData) (c : TransformCache) : HalfEdgeData × TransformCache :=
  let r0 := transformVertex he.v0 c
  let r1 := transformVertex he.v1 r0.2
  let r2 := transformGlobalEdge store he.global_form r1.2
  (⟨r0.1, r1.1, r2.1⟩, r2.2)

/-- The cache/log consistency invariant: the log is duplicate-free and
every logged computation has a cache entry. -/
def CacheInv (c : TransformCache) : Prop :=
  c.log.Nodup ∧ ∀ kh ∈ c.log, (c.lookupK kh.1 kh.2).isSome = true

theorem lookup_cons_preserve {l : List (Handle × Handle)} {h a v x : Handle}
    (hnone : l.lookup h = none) (hav : l.lookup a = some v) :
    ((h, x) :: l).lookup a = some v := by
  have hne : (a == h) = false := by
    by_cases hah : a = h
    · subst hah; rw [hav] at hnone; cases hnone
    · simp [hah]
  simp [List.lookup, hne, hav]

theorem TransformCache.record_log (c : TransformCache) (k : ObjKind) (h : Handle) :
    (c.record k h).log = c.log ++ [(k, h)] := by
  cases k <;> rfl

theorem TransformCache.record_lookup_self (c : TransformCache) (k : ObjKind)
    (h : Handle) : (c.record k h).lookupK k h = some c.next := by
  cases k <;> simp [TransformCache.record, TransformCache.lookupK, List.lookup]

theorem TransformCache.record_preserves (c : TransformCache) (k : ObjKind)
    (h : Handle) (hmiss : c.lookupK k h = none) (k' : ObjKind) (a v : Handle)
    (hl : c.lookupK k' a = some v) :
    (c.record k h).lookupK k' a = some v := by
  cases k <;> cases k' <;>
    simp only [TransformCache.record, TransformCache.lookupK] at hmiss hl ⊢ <;>
    first
      | exact lookup_cons_preserve hmiss hl
      | exact hl

theorem TransformCache.record_inv (c : TransformCache) (k : ObjKind) (h : Handle)
    (hmiss : c.lookupK k h = none) (hc : CacheInv c) : CacheInv (c.record k h) := by
  obtain ⟨hnd, hmem⟩ := hc
  constructor
  · rw [TransformCache.record_log]
    refine List.Nodup.append hnd (List.nodup_singleton _) ?_
    intro kh hk₁ hk₂
    rw [List.mem_singleton] at hk₂
    subst hk₂
    have hsome := hmem _ hk₁
    rw [hmiss] at hsome
    cases hsome
  · intro kh hk
    rw [TransformCache.record_log] at hk
    rcases List.mem_append.mp hk with hk' | hk'
    · obtain ⟨v, hv⟩ := Option.isSome_iff_exists.mp (hmem _ hk')
      rw [Option.isSome_iff_exists]
      exact ⟨v, TransformCache.record_preserves c k h hmiss kh.1 kh.2 v hv⟩
    · rw [List.mem_singleton] at hk'
      subst hk'
      rw [TransformCache.record_lookup_self]
      rfl

theorem transformVertex_hit (h : Handle) (c : TransformCache) (v : Handle)
    (hv : c.lookupK ObjKind.vertex h = some v) :
    transformVertex h c = (v, c) := by
  simp only [TransformCache.lookupK] at hv
  simp [transformVertex, hv]

theorem transformVertex_post (h : Handle) (c : TransformCache) :
    (transformVertex h c).2.lookupK ObjKind.vertex h
      = some (transformVertex h c).1 := by
  unfold transformVertex
  cases hv : c.vertices.lookup h with
  | some cached => exact hv
  | none => exact c.record_lookup_self ObjKind.vertex h

theorem transformVertex_preserves (h : Handle) (c : TransformCache)
    (k' : ObjKind) (a v : Handle) (hl : c.lookupK k' a = some v) :
    (transformVertex h c).2.lookupK k' a = some v := by
  unfold transformVertex
  cases hv : c.vertices.lookup h with
  | some cached => exact hl
  | none => exact c.record_preserves ObjKind.vertex h hv k' a v hl

theorem transformVertex_inv (h : Handle) (c : TransformCache)
    (hc : CacheInv c) : CacheInv (transformVertex h c).2 := by
  unfold transformVertex
  cases hv : c.vertices.lookup h with
  | some cached => exact hc
  | none => exact c.record_inv ObjKind.vertex h hv hc

theorem transformVertex_global_edges (h : Handle) (c : TransformCache) :
    (transformVertex h c).2.global_edges = c.global_edges := by
  unfold transformVertex
  cases hv : c.vertices.lookup h <;> rfl

theorem transformCurve_preserves (h : Handle) (c : TransformCache)
    (k' : ObjKind) (a v : Handle) (hl : c.lookupK k' a = some v) :
    (transformCurve h c).2.lookupK k' a = some v := by
  unfold transformCurve
  cases hv : c.curves.lookup h with
  | some cached => exact hl
  | none => exact c.record_preserves ObjKind.curve h hv k' a v hl

theorem transformCurve_inv (h : Handle) (c : TransformCache)
    (hc : CacheInv c) : CacheInv (transformCurve h c).2 := by
  unfold transformCurve
  cases hv : c.curves.lookup h with
  | some cached => exact hc
  | none => exact c.record_inv ObjKind.curve h hv hc

theorem transformCurve_global_edges (h : Handle) (c : TransformCache) :
    (transformCurve h c).2.global_edges = c.global_edges := by
  unfold transformCurve
  cases hv : c.curves.lookup h <;> rfl

theorem transformGlobalEdge_miss_lookup (store : Handle → GlobalEdgeData)
    (h : Handle) (c : TransformCache) (hg : c.global_edges.lookup h = none) :
    (transformVertex (store h).v1
      (transformVertex (store h).v0
        (transformCurve (store h).curve c).2).2).2.lookupK ObjKind.globalEdge h
      = none := by
  show (transformVertex _ _).2.global_edges.lookup h = none
  rw [transformVertex_global_edges, transformVertex_global_edges,
    transformCurve_global_edges]
  exact hg

theorem transformGlobalEdge_post (store : Handle → GlobalEdgeData) (h : Handle)
    (c : TransformCache) :
    (transformGlobalEdge store h c).2.lookupK ObjKind.globalEdge h
      = some (transformGlobalEdge store h c).1 := by
  unfold transformGlobalEdge
  cases hg : c.global_edges.lookup h with
  | some cached => exact hg
  | none =>
    dsimp only
    exact TransformCache.record_lookup_self _ ObjKind.globalEdge h

theorem transformGlobalEdge_preserves (store : Handle → GlobalEdgeData)
    (h : Handle) (c : TransformCache) (k' : ObjKind) (a v : Handle)
    (hl : c.lookupK k' a = some v) :
    (transformGlobalEdge store h c).2.lookupK k' a = some v := by
  unfold transformGlobalEdge
  cases hg : c.global_edges.lookup h with
  | some cached => exact hl
  | none =>
    dsimp only
    refine TransformCache.record_preserves _ ObjKind.globalEdge h
      (transformGlobalEdge_miss_lookup store h c hg) k' a v ?_
    exact transformVertex_preserves _ _ k' a v
      (transformVertex_preserves _ _ k' a v
        (transformCurve_preserves _ _ k' a v hl))

theorem transformGlobalEdge_inv (store : Handle → GlobalEdgeData) (h : Handle)
    (c : TransformCache) (hc : CacheInv c) :
    CacheInv (transformGlobalEdge store h c).2 := by
  unfold transformGlobalEdge
  cases hg : c.global_edges.lookup h with
  | some cached => exact hc
  | none =>
    dsimp only
    exact TransformCache.record_inv _ ObjKind.globalEdge h
      (transformGlobalEdge_miss_lookup store h c hg)
      (transformVertex_inv _ _ (transformVertex_inv _ _ (transformCurve_inv _ _ hc)))

/-- C2: one invocation of `transform_with_cache` on a half-edge, with one
cache that starts empty: the computation log ends duplicate-free (each
distinct original object is transformed at most once), each position of the
result holds exactly the handle the final cache associates to the original
handle at that position (so two positions sharing an original handle share
the resulting handle), and in particular if the half-edge's two vertex
positions held the same handle, the transformed positions hold the same
handle. -/
theorem transform_with_cache_sharing (store : Handle → GlobalEdgeData)
    (he : HalfEdgeData) (n0 : Handle) :
    (HalfEdge.transform_with_cache store he ⟨[], [], [], n0, []⟩).2.log.Nodup ∧
    (HalfEdge.transform_with_cache store he ⟨[], [], [], n0, []⟩).2.lookupK
        ObjKind.vertex he.v0
      = some (HalfEdge.transform_with_cache store he ⟨[], [], [], n0, []⟩).1.v0 ∧
    (HalfEdge.transform_with_cache store he ⟨[], [], [], n0, []⟩).2.lookupK
        ObjKind.vertex he.v1
      = some (HalfEdge.transform_with_cache store he ⟨[], [], [], n0, []⟩).1.v1 ∧
    (HalfEdge.transform_with_cache store he ⟨[], [], [], n0, []⟩).2.lookupK
        ObjKind.globalEdge he.global_form
      = some (HalfEdge.transform_with_cache store he
          ⟨[], [], [], n0, []⟩).1.global_form ∧
    (he.v0 = he.v1 →
      (HalfEdge.transform_with_cache store he ⟨[], [], [], n0, []⟩).1.v0
        = (HalfEdge.transform_with_cache store he ⟨[], [], [], n0, []⟩).1.v1) := by
  simp only [HalfEdge.transform_with_cache]
  have hinv0 : CacheInv ⟨[], [], [], n0, []⟩ :=
    ⟨List.nodup_nil, fun kh hk => absurd hk (List.not_mem_nil kh)⟩
  have h0 := transformVertex_post he.v0 ⟨[], [], [], n0, []⟩
  have hinv1 := transformVertex_inv he.v0 ⟨[], [], [], n0, []⟩ hinv0
  have h1 := transformVertex_post he.v1 (transformVertex he.v0 ⟨[], [], [], n0, []⟩).2
  have hinv2 := transformVertex_inv he.v1
    (transformVertex he.v0 ⟨[], [], [], n0, []⟩).2 hinv1
  have h0b := transformVertex_preserves he.v1
    (transformVertex he.v0 ⟨[], [], [], n0, []⟩).2 ObjKind.vertex he.v0
    (transformVertex he.v0 ⟨[], [], [], n0, []⟩).1 h0
  refine ⟨?_, ?_, ?_, ?_, ?_⟩
  · exact (transformGlobalEdge_inv store he.global_form _ hinv2).1
  · exact transformGlobalEdge_preserves store he.global_form _ ObjKind.vertex
      he.v0 _ h0b
  · exact transformGlobalEdge_preserves store he.global_form _ ObjKind.vertex
      he.v1 _ h1
  · exact transformGlobalEdge_post store he.global_form _
  · intro hv
    have hhit : transformVertex he.v1
        (transformVertex he.v0 ⟨[], [], [], n0, []⟩).2
        = ((transformVertex he.v0 ⟨[], [], [], n0, []⟩).1,
           (transformVertex he.v0 ⟨[], [], [], n0, []⟩).2) := by
      rw [← hv]
      exact transformVertex_hit he.v0 _ _ h0
    rw [hhit]

/-- Witness for C2: a half-edge whose two vertex positions share handle 5;
after one cached transform both positions hold the same new handle. -/
theorem transform_with_cache_sharing_witness :
    (HalfEdge.transform_with_cache (fun _ => ⟨1, 2, 3⟩) ⟨5, 5, 7⟩
        ⟨[], [], [], 100, []⟩).1.v0
      = (HalfEdge.transform_with_cache (fun _ => ⟨1, 2, 3⟩) ⟨5, 5, 7⟩
          ⟨[], [], [], 100, []⟩).1.v1 :=
  (transform_with_cache_sharing (fun _ => ⟨1, 2, 3⟩) ⟨5, 5, 7⟩ 100).2.2.2.2 rfl

/-! ## Polygon-from-points builders
(`crates/fj-kernel/src/builder/face.rs`, `builder/sketch.rs`)

`face.rs` builds both exterior and interior polygons as
`Cycle::partial().with_poly_chain_from_points(..).close_with_line_segment()`.
The two cycle-builder methods live in the unsampled `builder/cycle.rs` and
are modelled from the spec: a chain of half-edges through consecutive
points, closed by a final segment back to the start point. Vertices are
identified by their 2D surface positions. -/

/-- A half-edge of a cycle under construction: its start and end vertex
positions in the surface. -/
structure CycleHalfEdge where
  startVertex : Point2
  endVertex : Point2
deriving DecidableEq, Repr

/-- Modelled from the spec: `CycleBuilder::with_poly_chain_from_points` —
one half-edge between each pair of consecutive points. -/
def with_poly_chain_from_points (points : List Point2) : List CycleHalfEdge :=
  (points.zip (points.drop 1)).map fun pq => ⟨pq.1, pq.2⟩

/-- Modelled from the spec: `CycleBuilder::close_with_line_segment` — close
the chain with a final segment from the last half-edge's end vertex back to
the first half-edge's start vertex. -/
def close_with_line_segment (chain : List CycleHalfEdge) : List CycleHalfEdge :=
  match chain with
  | [] => []
  | first :: rest =>
    (first :: rest) ++
      [⟨((first :: rest).getLast (List.cons_ne_nil first rest)).endVertex,
        first.startVertex⟩]

/-- `FaceBuilder::with_exterior_polygon_from_points` (`face.rs`): the
exterior cycle built from a point sequence. -/
def with_exterior_polygon_from_points (points : List Point2) :
    List CycleHalfEdge :=
  close_with_line_segment (with_poly_chain_from_points points)

/-- `FaceBuilder::with_interior_polygon_from_points` (`face.rs`): an
interior cycle built from a point sequence, by the same chain-then-close
combination. -/
def with_interior_polygon_from_points (points : List Point2) :
    List CycleHalfEdge :=
  close_with_line_segment (with_poly_chain_from_points points)

theorem with_poly_chain_chain' (points : List Point2) :
    List.Chain' (fun e f => e.endVertex = f.startVertex)
      (with_poly_chain_from_points points) := by
  induction points with
  | nil => simp [with_poly_chain_from_points]
  | cons p rest ih =>
    cases rest with
    | nil => simp [with_poly_chain_from_points]
    | cons q rest' =>
      have hstep : with_poly_chain_from_points (p :: q :: rest')
          = ⟨p, q⟩ :: with_poly_chain_from_points (q :: rest') := rfl
      rw [hstep]
      refine List.chain'_cons'.mpr ⟨?_, ih⟩
      intro b hb
      cases rest' with
      | nil => simp [with_poly_chain_from_points, Option.mem_def] at hb
      | cons r rest2 =>
        have hbq : (⟨q, r⟩ : CycleHalfEdge) = b := by
          simpa [with_poly_chain_from_points, Option.mem_def] using hb
        rw [← hbq]

theorem close_with_line_segment_chain' (chain : List CycleHalfEdge)
    (h : List.Chain' (fun e f => e.endVertex = f.startVertex) chain) :
    List.Chain' (fun e f => e.endVertex = f.startVertex)
      (close_with_line_segment chain) := by
  cases chain with
  | nil => simp [close_with_line_segment]
  | cons first rest =>
    simp only [close_with_line_segment]
    refine List.Chain'.append h (List.chain'_singleton _) ?_
    intro x hx y hy
    rw [List.getLast?_eq_getLast _ (List.cons_ne_nil first rest)] at hx
    rw [Option.mem_def, Option.some.injEq] at hx
    subst hx
    rw [List.head?_cons, Option.mem_def, Option.some.injEq] at hy
    subst hy
    rfl

/-- C9: each polygon-from-points construction (exterior or interior)
produces a cycle whose half-edges chain end-to-start with no gap, whose
final half-edge's end vertex equals the first half-edge's start vertex,
and the interior construction coincides with the exterior one. -/
theorem polygon_from_points_cycle_closed (points : List Point2) :
    List.Chain' (fun e f => e.endVertex = f.startVertex)
      (with_exterior_polygon_from_points points) ∧
    (∀ e f, (with_exterior_polygon_from_points points).getLast? = some e →
      (with_exterior_polygon_from_points points).head? = some f →
      e.endVertex = f.startVertex) ∧
    with_interior_polygon_from_points points
      = with_exterior_polygon_from_points points := by
  refine ⟨close_with_line_segment_chain' _ (with_poly_chain_chain' points),
    ?_, rfl⟩
  intro e f hl hh
  cases hc : with_poly_chain_from_points points with
  | nil =>
    rw [with_exterior_polygon_from_points, hc] at hl
    simp [close_with_line_segment] at hl
  | cons first rest =>
    rw [with_exterior_polygon_from_points, hc] at hl hh
    simp only [close_with_line_segment] at hl hh
    rw [List.getLast?_concat] at hl
    rw [List.cons_append, List.head?_cons] at hh
    obtain rfl : _ = e := Option.some.inj hl
    obtain rfl : first = f := Option.some.inj hh
    rfl

/-- Witness for C9 at a concrete triangle: the chain property holds and
the closing half-edge runs from the last point back to the first. -/
theorem polygon_from_points_cycle_closed_witness :
    List.Chain' (fun e f => e.endVertex = f.startVertex)
      (with_exterior_polygon_from_points [⟨0, 0⟩, ⟨1, 0⟩, ⟨0, 1⟩]) ∧
    (CycleHalfEdge.mk ⟨0, 1⟩ ⟨0, 0⟩).endVertex
      = (CycleHalfEdge.mk ⟨0, 0⟩ ⟨1, 0⟩).startVertex := by
  have h := polygon_from_points_cycle_closed [⟨0, 0⟩, ⟨1, 0⟩, ⟨0, 1⟩]
  exact ⟨h.1, h.2.1 ⟨⟨0, 1⟩, ⟨0, 0⟩⟩ ⟨⟨0, 0⟩, ⟨1, 0⟩⟩ rfl rfl⟩

/-! ## Partial object construction
(`crates/fj-kernel/src/partial/traits.rs`)

The `Partial` trait declares `build`: infer what is missing, insert the
result in the Object Store, and treat an uninferable missing field as a
programmer error (the implementations panic). The concrete implementations
are unsampled; the face case singled out by the spec's testable property
(build a partial face with no exterior cycle) is modelled from the spec. -/

/-- A full face: its exterior cycle and its interior cycles. -/
structure Face where
  exterior : List CycleHalfEdge
  interiors : List (List CycleHalfEdge)
deriving DecidableEq, Repr

/-- Modelled from the spec: `PartialFace` — the staging structure whose
required exterior-cycle field is optional until `build`. -/
structure PartialFace where
  exterior : Option (List CycleHalfEdge)
  interiors : List (List CycleHalfEdge)
deriving DecidableEq, Repr

/-- Modelled from the spec: the Object Store (`Objects`), append-only
storage of built faces. -/
structure Objects where
  faces : List Face
deriving DecidableEq, Repr

/-- The construction error of an unsatisfiable `build` (the implementation
panic, surfaced as data here). -/
inductive BuildError
  | missingExteriorCycle
deriving DecidableEq, Repr

/-- Modelled from the spec: `Partial::build` for a face. An unset exterior
cycle cannot be inferred from the other fields, so the build step aborts
without touching the store; otherwise the full face is assembled and
inserted. The returned pair is (build outcome, store afterwards). -/
def PartialFace.build (f : PartialFace) (objects : Objects) :
    Except BuildError Face × Objects :=
  match f.exterior with
  | none => (Except.error BuildError.missingExteriorCycle, objects)
  | some ext =>
    let face : Face := ⟨ext, f.interiors⟩
    (Except.ok face, ⟨objects.faces ++ [face]⟩)

/-- C3: building a partial face whose required exterior-cycle field is
unset (and not inferable) fails the build step — no full face is returned
— and inserts nothing into the Object Store: the store is unchanged, its
size in particular. -/
theorem build_without_required_field_inserts_nothing (f : PartialFace)
    (objects : Objects) (h : f.exterior = none) :
    (f.build objects).1 = Except.error BuildError.missingExteriorCycle ∧
    (f.build objects).2 = objects ∧
    (f.build objects).2.faces.length = objects.faces.length := by
  simp [PartialFace.build, h]

/-- Witness for C3: the empty partial face against the empty store. -/
theorem build_without_required_field_inserts_nothing_witness :
    ((PartialFace.mk none []).build ⟨[]⟩).1
        = Except.error BuildError.missingExteriorCycle ∧
    ((PartialFace.mk none []).build ⟨[]⟩).2 = ⟨[]⟩ ∧
    ((PartialFace.mk none []).build ⟨[]⟩).2.faces.length
        = (Objects.mk []).faces.length :=
  build_without_required_field_inserts_nothing ⟨none, []⟩ ⟨[]⟩ rfl

/-! ## Evaluator worker (`crates/fj-host/src/evaluator.rs`)

The worker thread's loop: for each received `TriggerEvaluation`, send
`ModelEvent::ChangeDetected`, run `model.evaluate()`, and send either
`ModelEvent::Evaluation(..)` or `ModelEvent::Error(..)`, then continue with
the next trigger. The channel rendezvous is abstracted: the consumer is
assumed connected, so the `SendError`-then-`break` branches (taken only on
disconnection) do not fire, and each trigger is paired with the outcome of
its `model.evaluate()` call. -/

/-- `ModelEvent`: the events the worker emits. -/
inductive ModelEvent (E Err : Type) where
  | changeDetected
  | evaluation (evaluation : E)
  | error (err : Err)

/-- One iteration of the worker's loop body for a received trigger whose
`model.evaluate()` call produced `result`. -/
def evaluatorStep {E Err : Type} (result : Except Err E) :
    List (ModelEvent E Err) :=
  ModelEvent.changeDetected ::
    (match result with
     | Except.ok evaluation => [ModelEvent.evaluation evaluation]
     | Except.error err => [ModelEvent.error err])

/-- The worker's loop over the stream of received triggers (each with its
evaluation outcome), concatenating the emitted events. -/
def evaluatorLoop {E Err : Type} : List (Except Err E) → List (ModelEvent E Err)
  | [] => []
  | r :: rest => evaluatorStep r ++ evaluatorLoop rest

/-- C7: for every received trigger the worker first emits `ChangeDetected`,
then exactly one of `Evaluation(result)` or `Error(error)` — a failure is
delivered as a data event — and then continues, serving the remaining
triggers exactly as it would have served them alone. -/
theorem evaluator_emits_change_then_result {E Err : Type}
    (r : Except Err E) (rest : List (Except Err E)) :
    ∃ ev, evaluatorLoop (r :: rest)
        = ModelEvent.changeDetected :: ev :: evaluatorLoop rest ∧
      ((∃ e, r = Except.ok e ∧ ev = ModelEvent.evaluation e) ∨
       (∃ err, r = Except.error err ∧ ev = ModelEvent.error err)) := by
  cases r with
  | ok e => exact ⟨ModelEvent.evaluation e, rfl, Or.inl ⟨e, rfl, rfl⟩⟩
  | error err => exact ⟨ModelEvent.error err, rfl, Or.inr ⟨err, rfl, rfl⟩⟩

/-! ## Plugin ABI boundary (`crates/fj/src/abi/model.rs`)

The `From<Box<dyn Model>> for Model` conversion installs three `extern "C"`
shims (`shape`, `metadata`, `free`) that run the user's code under
`std::panic::catch_unwind` and route a caught panic payload to
`abi::on_panic` (unsampled; per the spec it produces a process-level fatal
report distinct from a normal evaluation error). A user call's behaviour is
modelled as data: it either returns a value or unwinds with a panic
payload; `catch_unwind` turns the latter into an `error` value, so no
unwinding ever continues past the shim — every shim is a total function
into `BoundaryReturn`, a type with no unwinding constructor. -/

/-- An invocation of user model code: a normal return, or an unwind
carrying a panic payload. -/
inductive UserCallOutcome (A P : Type) where
  | returns (a : A)
  | panics (payload : P)

/-- `std::panic::catch_unwind`: a normal return becomes `ok`; a panic is
caught and its payload delivered as `error`. -/
def catch_unwind {A P : Type} : UserCallOutcome A P → Except P A
  | .returns a => Except.ok a
  | .panics payload => Except.error payload

/-- `abi::ffi_safe::Result` (`ShapeResult`): the plain-data result value
that crosses the boundary on a normal (possibly failed) evaluation. -/
inductive FfiResult (S E : Type) where
  | ok (s : S)
  | err (e : E)

/-- What comes back across the boundary: either a plain-data value, or the
distinct process-level fatal report produced by `on_panic` for a caught
panic. There is no unwinding constructor. -/
inductive BoundaryReturn (R P : Type) where
  | value (r : R)
  | fatalReport (payload : P)

/-- The `shape` shim of `abi/model.rs`: `Ok(Ok(shape))` becomes
`ShapeResult::Ok`, `Ok(Err(err))` becomes `ShapeResult::Err`, and a caught
panic payload goes to `on_panic`. -/
def shape_shim {S E P : Type} (call : UserCallOutcome (Except E S) P) :
    BoundaryReturn (FfiResult S E) P :=
  match catch_unwind call with
  | Except.ok (Except.ok shape) => BoundaryReturn.value (FfiResult.ok shape)
  | Except.ok (Except.error err) => BoundaryReturn.value (FfiResult.err err)
  | Except.error payload => BoundaryReturn.fatalReport payload

/-- The `metadata` shim of `abi/model.rs`. -/
def metadata_shim {M P : Type} (call : UserCallOutcome M P) :
    BoundaryReturn M P :=
  match catch_unwind call with
  | Except.ok meta => BoundaryReturn.value meta
  | Except.error payload => BoundaryReturn.fatalReport payload

/-- The `free` shim of `abi/model.rs`: dropping the boxed model under
`catch_unwind`. -/
def free_shim {P : Type} (call : UserCallOutcome Unit P) :
    BoundaryReturn Unit P :=
  match catch_unwind call with
  | Except.ok _ => BoundaryReturn.value ()
  | Except.error payload => BoundaryReturn.fatalReport payload

/-- C8: at each of the three shims, a panic inside the user code is caught
and converted into the distinct fatal-report outcome carrying its payload;
a normal evaluation failure crosses as the structured `ShapeResult::Err`
value; a success crosses as `ShapeResult::Ok`; and every `shape` invocation
lands in one of the two non-unwinding outcomes (a plain value, or the
fatal report exactly when the user code panicked) — no unwind propagates
past the boundary. -/
theorem abi_boundary_contains_panics (S E M P : Type) :
    (∀ p : P, @shape_shim S E P (UserCallOutcome.panics p)
        = BoundaryReturn.fatalReport p) ∧
    (∀ e : E, @shape_shim S E P (UserCallOutcome.returns (Except.error e))
        = BoundaryReturn.value (FfiResult.err e)) ∧
    (∀ s : S, @shape_shim S E P (UserCallOutcome.returns (Except.ok s))
        = BoundaryReturn.value (FfiResult.ok s)) ∧
    (∀ u : UserCallOutcome (Except E S) P,
      (∃ r, @shape_shim S E P u = BoundaryReturn.value r) ∨
      (∃ p, u = UserCallOutcome.panics p ∧
        @shape_shim S E P u = BoundaryReturn.fatalReport p)) ∧
    (∀ p : P, @metadata_shim M P (UserCallOutcome.panics p)
        = BoundaryReturn.fatalReport p) ∧
    (∀ m : M, @metadata_shim M P (UserCallOutcome.returns m)
        = BoundaryReturn.value m) ∧
    (∀ p : P, @free_shim P (UserCallOutcome.panics p)
        = BoundaryReturn.fatalReport p) := by
  refine ⟨fun p => rfl, fun e => rfl, fun s => rfl, ?_, fun p => rfl,
    fun m => rfl, fun p => rfl⟩
  intro u
  cases u with
  | returns a =>
    cases a with
    | ok s => exact Or.inl ⟨FfiResult.ok s, rfl⟩
    | error e => exact Or.inl ⟨FfiResult.err e, rfl⟩
  | panics p => exact Or.inr ⟨p, rfl, rfl⟩

end Fornjot
